import Mathlib

/-!
Shallow embedding of the SpeakBot mobile client's command-transport and
execution core, covering:

* `CommandExecutor` (`src/mobile-app/src/services/websocket.ts`, second
  module): `calculateTargetPosition`, `executeCommand`, `executeQueue`;
* the zustand command store (`addCommand` / `addCommands` / history ring);
* `WebSocketService.connect` / `reconnect` and the reconnect schedule;
* the streaming-audio chunker `sendAudioChunk` of `useVoiceCall.ts`,
  together with base64 encoding/decoding.

Numbers are modelled as rationals (`ℚ`); JavaScript's `x || default`
idiom on numbers is modelled by treating `0` as falsy.
-/

namespace SpeakBot

/-- Robot status values from the robot store (`'idle' | 'busy' | 'error'`). -/
inductive RobotStatus where
  | idle
  | busy
  | error
deriving DecidableEq, Repr

/-- Command status values (`'pending' | 'executing' | 'completed' | 'failed'`). -/
inductive CommandStatus where
  | pending
  | executing
  | completed
  | failed
deriving DecidableEq, Repr

/-- Position `{x, y, z}` of the robot, components modelled as rationals. -/
structure Position where
  x : ℚ
  y : ℚ
  z : ℚ
deriving DecidableEq, Repr

/-- A `Command` from `types/commands.ts`. Its `params` is a string-keyed
map of which the executor reads only `params.distance`; we model just
that field, as an optional rational (`none` = key absent). -/
structure Command where
  command : String
  distance : Option ℚ
  description : String
  command_id : String
deriving DecidableEq, Repr

/-- JavaScript `command.params.distance || 1`: an absent value and the
falsy number `0` both yield the default `1`. -/
def jsOrOne (d : Option ℚ) : ℚ :=
  match d with
  | none => 1
  | some v => if v = 0 then 1 else v

/-- Embedding of `CommandExecutor.calculateTargetPosition`: dispatch on
the command name, applying a signed unit-axis delta scaled by
`params.distance || 1`; unknown names (and `turn_left`/`turn_right`/
`stop`) leave the position unchanged. -/
def calculateTargetPosition (cmd : Command) (currentPos : Position) : Position :=
  if cmd.command = "forward" then
    { currentPos with z := currentPos.z - jsOrOne cmd.distance }
  else if cmd.command = "backward" then
    { currentPos with z := currentPos.z + jsOrOne cmd.distance }
  else if cmd.command = "left" then
    { currentPos with x := currentPos.x - jsOrOne cmd.distance }
  else if cmd.command = "right" then
    { currentPos with x := currentPos.x + jsOrOne cmd.distance }
  else if cmd.command = "up" then
    { currentPos with y := currentPos.y + jsOrOne cmd.distance }
  else if cmd.command = "down" then
    { currentPos with y := currentPos.y - jsOrOne cmd.distance }
  else
    currentPos

/-- The position emitted on step `i` of the interpolation loop of
`executeCommand`: `current + (target - current) / steps * i`
componentwise (the code computes `delta = (target - current) / steps`
once and emits `current + delta * i`). -/
def interpolationPoint (cur tgt : Position) (steps : Nat) (i : Nat) : Position :=
  { x := cur.x + (tgt.x - cur.x) / (steps : ℚ) * (i : ℚ)
  , y := cur.y + (tgt.y - cur.y) / (steps : ℚ) * (i : ℚ)
  , z := cur.z + (tgt.z - cur.z) / (steps : ℚ) * (i : ℚ) }

/-- The interpolation loop `for i = 1..k` of `executeCommand`, emitting
`interpolationPoint cur tgt steps i` at each iteration, in order. -/
def interpLoop (cur tgt : Position) (steps : Nat) : Nat → List Position
  | 0 => []
  | k + 1 => interpLoop cur tgt steps k ++ [interpolationPoint cur tgt steps (k + 1)]

/-- Embedding of `CommandExecutor.executeCommand` (uncancelled run): the
list of positions passed to `onPositionUpdate`. If the target equals the
current position the code only delays and emits nothing; otherwise it
emits the `steps` interpolation-loop values followed by the exact target
(`callbacks.onPositionUpdate(targetPos)` after the loop). -/
def executeCommandEmissions (steps : Nat) (cmd : Command) (cur : Position) : List Position :=
  let tgt := calculateTargetPosition cmd cur
  if cur = tgt then []
  else interpLoop cur tgt steps steps ++ [tgt]

/-- Mutable state of a `CommandExecutor` instance: the busy flag
`isExecuting`, whether an `AbortController` is currently held
(`abortController !== null`), and the configured `animationSteps`. -/
structure ExecutorState where
  isExecuting : Bool
  abortActive : Bool
  animationSteps : Nat
deriving DecidableEq, Repr

/-- Default executor configuration (`DEFAULT_CONFIG`): 20 animation steps. -/
def DEFAULT_ANIMATION_STEPS : Nat := 20

/-- Observable callback invocations made by a queue run, in order. -/
inductive ExecEvent where
  | statusChange (s : RobotStatus)
  | actionChange (a : Option String)
  | positionUpdate (p : Position)
  | commandStart (c : Command) (i : Nat)
  | commandComplete (c : Command) (i : Nat)
  | commandError (c : Command) (i : Nat) (msg : String)
deriving DecidableEq, Repr

/-- Environment oracle for one command of a queue run, abstracting the
asynchronous abort signal and callback failures:
`ok` — `executeCommand` runs to completion;
`fail msg` — `executeCommand` raises a non-cancellation error `msg`;
`cancelBefore` — the abort signal is already set at the top of the loop
iteration (`this.abortController.signal.aborted` → `break`);
`cancelDuring k` — the abort signal is observed inside `executeCommand`
after `k` interpolation emissions (the cancellation error is thrown and
the loop `break`s). -/
inductive Outcome where
  | ok
  | fail (msg : String)
  | cancelBefore
  | cancelDuring (k : Nat)
deriving DecidableEq, Repr

/-- Whether an outcome is a cancellation (abort-signal) outcome. -/
def Outcome.isCancel : Outcome → Bool
  | .cancelBefore => true
  | .cancelDuring _ => true
  | _ => false

/-- The `for` loop of `executeQueue`, processing the remaining commands
starting at pending-subset index `i` from position `pos`: at each
iteration it checks the abort signal, reports `onCommandStart` and
`onActionChange`, runs `executeCommand` (emitting positions), and on
success reports `onCommandComplete`; a non-cancellation error is caught,
reported via `onCommandError`, and the loop continues; a cancellation
`break`s the loop. The position evolves to the command's target exactly
when the command completed. -/
def runLoop (steps : Nat) (oracle : Nat → Outcome) :
    List Command → Nat → Position → List ExecEvent
  | [], _, _ => []
  | cmd :: rest, i, pos =>
    match oracle i with
    | .cancelBefore => []
    | .ok =>
      let tgt := calculateTargetPosition cmd pos
      ExecEvent.commandStart cmd i :: ExecEvent.actionChange (some cmd.description) ::
        ((executeCommandEmissions steps cmd pos).map ExecEvent.positionUpdate
          ++ (ExecEvent.commandComplete cmd i :: runLoop steps oracle rest (i + 1) tgt))
    | .fail msg =>
      ExecEvent.commandStart cmd i :: ExecEvent.actionChange (some cmd.description) ::
        ExecEvent.commandError cmd i msg :: runLoop steps oracle rest (i + 1) pos
    | .cancelDuring k =>
      let tgt := calculateTargetPosition cmd pos
      ExecEvent.commandStart cmd i :: ExecEvent.actionChange (some cmd.description) ::
        (interpLoop pos tgt steps (min k steps)).map ExecEvent.positionUpdate

/-- Embedding of `CommandExecutor.executeQueue`: guarded by the busy
flag (busy → immediate return, nothing touched), then by emptiness
(empty list → immediate return before the busy flag is set or any
callback fires); otherwise it sets the busy flag, arms an abort
controller, reports `onStatusChange('busy')`, runs the loop, reports
`onStatusChange('idle')` and `onActionChange(null)`, and in the
`finally` clears the busy flag and releases the controller. Returns the
final executor state together with the ordered callback trace. -/
def executeQueue (st : ExecutorState) (cmds : List Command)
    (oracle : Nat → Outcome) (pos : Position) : ExecutorState × List ExecEvent :=
  if st.isExecuting then (st, [])
  else if cmds.length = 0 then (st, [])
  else
    ({ st with isExecuting := false, abortActive := false },
      ExecEvent.statusChange .busy ::
        (runLoop st.animationSteps oracle cmds 0 pos
          ++ [ExecEvent.statusChange .idle, ExecEvent.actionChange none]))

/-- A queue record: a command plus its status and optional error
(`CommandWithStatus` of `types/commands.ts`). -/
structure CommandWithStatus where
  cmd : Command
  status : CommandStatus
  error : Option String
deriving DecidableEq, Repr

/-- State of the zustand command store (`commandStore`). The cursor is
an `Int` because JavaScript `findIndex` can store `-1` into it. -/
structure CommandStoreState where
  commands : List CommandWithStatus
  currentCommandIndex : Int
  history : List Command
  isProcessing : Bool
  storeError : Option String
deriving DecidableEq, Repr

/-- The history capacity `APP_CONFIG.MAX_HISTORY_SIZE`. -/
def MAX_HISTORY_SIZE : Nat := 100

/-- JavaScript `l.slice(-n)`: the suffix of the last `min n l.length`
elements. -/
def jsSliceLast (n : Nat) (l : List α) : List α :=
  l.drop (l.length - n)

/-- Embedding of the store's `addCommand`: append one pending-tagged
record and push the raw command onto the capacity-100 history ring. -/
def addCommand (st : CommandStoreState) (c : Command) : CommandStoreState :=
  { st with
    commands := st.commands ++ [⟨c, .pending, none⟩]
    history := jsSliceLast MAX_HISTORY_SIZE (st.history ++ [c]) }

/-- Embedding of the store's `addCommands`: append a batch of
pending-tagged records preserving order and push the raw batch onto the
capacity-100 history ring. -/
def addCommands (st : CommandStoreState) (cs : List Command) : CommandStoreState :=
  { st with
    commands := st.commands ++ cs.map (fun c => ⟨c, .pending, none⟩)
    history := jsSliceLast MAX_HISTORY_SIZE (st.history ++ cs) }

/-- Embedding of the store's `updateCommandStatus`: map over the list,
replacing status and error of every record whose `command_id` matches. -/
def updateCommandStatus (st : CommandStoreState) (id : String)
    (status : CommandStatus) (err : Option String) : CommandStoreState :=
  { st with
    commands := st.commands.map fun r =>
      if r.cmd.command_id = id then { r with status := status, error := err } else r }

/-- One enqueue call: `addCommand` with a single command or
`addCommands` with a batch. -/
inductive EnqueueOp where
  | single (c : Command)
  | batch (cs : List Command)
deriving DecidableEq, Repr

/-- Apply one enqueue call to the store. -/
def applyEnqueue (st : CommandStoreState) : EnqueueOp → CommandStoreState
  | .single c => addCommand st c
  | .batch cs => addCommands st cs

/-- Apply a sequence of enqueue calls in order. -/
def applyEnqueues (st : CommandStoreState) (ops : List EnqueueOp) : CommandStoreState :=
  ops.foldl applyEnqueue st

/-- The raw commands delivered by a sequence of enqueue calls, in call
order. -/
def enqueuedCommands : List EnqueueOp → List Command
  | [] => []
  | .single c :: ops => c :: enqueuedCommands ops
  | .batch cs :: ops => cs ++ enqueuedCommands ops

/-- The `i`-th of a family of distinct test commands, used to state the
105-command history scenario. -/
def seqCmd (i : Nat) : Command :=
  ⟨"forward", some (i : ℚ), "", ""⟩

/-- A sequence of `n` single-command enqueue calls of distinct commands. -/
def seqOps (n : Nat) : List EnqueueOp :=
  (List.range n).map (fun i => EnqueueOp.single (seqCmd i))

/-- JavaScript `Array.findIndex`: the index of the first element
satisfying `p`, or `-1` when none does. -/
def jsFindIndex (p : α → Bool) (l : List α) : Int :=
  match l.findIdx? p with
  | some n => (n : Int)
  | none => -1

/-- The command store's reaction to one executor callback, as wired in
`executeCommands` of the command store: `onCommandStart` moves the
cursor to the command's index in the full list and marks it executing;
`onCommandComplete` marks it completed; `onCommandError` marks it
failed with the error message and records the error in the store. The
position/status/action callbacks go to the robot store, not this one. -/
def applyExecEvent (st : CommandStoreState) : ExecEvent → CommandStoreState
  | .commandStart c _ =>
    updateCommandStatus
      { st with
        currentCommandIndex :=
          jsFindIndex (fun r => r.cmd.command_id = c.command_id) st.commands }
      c.command_id .executing none
  | .commandComplete c _ => updateCommandStatus st c.command_id .completed none
  | .commandError c _ m =>
    { updateCommandStatus st c.command_id .failed (some m) with storeError := some m }
  | _ => st

/-- State of `WebSocketService` relevant to connection and reconnect:
the attempt counter, the manual-disconnect flag, the connecting flag,
and whether the socket is currently open. -/
structure WSState where
  reconnectAttempts : Nat
  manualDisconnect : Bool
  isConnecting : Bool
  wsOpen : Bool
deriving DecidableEq, Repr

/-- The reconnect delay schedule `APP_CONFIG.WS_RECONNECT_DELAY`. -/
def WS_RECONNECT_DELAY : List Nat := [1000, 2000, 5000]

/-- The cap `maxReconnectAttempts` of `WebSocketService`. -/
def maxReconnectAttempts : Nat := 3

/-- JavaScript `arr[i] || dflt` over numbers: out-of-range access and
the falsy element `0` both yield the default. -/
def jsIndexOr (l : List Nat) (i : Nat) (dflt : Nat) : Nat :=
  match l.get? i with
  | none => dflt
  | some v => if v = 0 then dflt else v

/-- Embedding of `WebSocketService.reconnect`: if the attempt counter
has reached the cap, schedule nothing; otherwise schedule a retry after
`WS_RECONNECT_DELAY[attempts] || 5000` ms and increment the counter.
Returns the new state and the scheduled delay, if any. -/
def reconnect (st : WSState) : WSState × Option Nat :=
  if maxReconnectAttempts ≤ st.reconnectAttempts then (st, none)
  else
    ({ st with reconnectAttempts := st.reconnectAttempts + 1 },
      some (jsIndexOr WS_RECONNECT_DELAY st.reconnectAttempts 5000))

/-- Connection-lifecycle events acting on `WSState`: `open` is the
socket's `onopen` handler (resets the attempt counter, clears the
connecting flag); `close` is `onclose` (clears the connecting flag,
then schedules a reconnect unless the manual-disconnect flag is set);
`manualClose` is `disconnect()` (sets the manual-disconnect flag and
releases the socket). -/
inductive WSEvent where
  | open
  | close
  | manualClose
deriving DecidableEq, Repr

/-- One step of the connection state machine, returning the new state
and the reconnect delay scheduled by this event, if any. -/
def wsStep (st : WSState) : WSEvent → WSState × Option Nat
  | .open =>
    ({ st with reconnectAttempts := 0, isConnecting := false, wsOpen := true }, none)
  | .close =>
    let st := { st with isConnecting := false, wsOpen := false }
    if st.manualDisconnect then (st, none) else reconnect st
  | .manualClose =>
    ({ st with manualDisconnect := true, wsOpen := false }, none)

/-- Run a sequence of connection events, collecting every scheduled
reconnect delay in order. -/
def wsRun (st : WSState) : List WSEvent → WSState × List Nat
  | [] => (st, [])
  | e :: es =>
    let (st1, d) := wsStep st e
    let (st2, ds) := wsRun st1 es
    (st2, (d.toList) ++ ds)

/-- Classification of the synchronous behaviour of one `connect()`
call: `resolveNow` — the socket is already open, the promise resolves
immediately; `silentReturn` — a connection attempt is already in
progress, the executor returns without resolving, rejecting, or
creating a socket (nothing retains the resolver, so the promise never
settles); `startSocket` — a new socket is created and handlers are
installed. -/
inductive ConnectAction where
  | resolveNow
  | silentReturn
  | startSocket
deriving DecidableEq, Repr

/-- Whether a `ConnectAction` settles the returned promise during or
after the call (resolves now, or installs socket handlers that can
later resolve or reject it). -/
def ConnectAction.canSettle : ConnectAction → Bool
  | .resolveNow => true
  | .silentReturn => false
  | .startSocket => true

/-- Whether a `ConnectAction` creates a new socket. -/
def ConnectAction.createsSocket : ConnectAction → Bool
  | .startSocket => true
  | _ => false

/-- Embedding of the synchronous body of `WebSocketService.connect`:
first it unconditionally clears the manual-disconnect flag; if the
socket is already open it resolves; if `isConnecting` is set it logs
and returns; otherwise it sets `isConnecting` and constructs the
socket. -/
def connectStep (st : WSState) : WSState × ConnectAction :=
  let st := { st with manualDisconnect := false }
  if st.wsOpen then (st, .resolveNow)
  else if st.isConnecting then (st, .silentReturn)
  else ({ st with isConnecting := true }, .startSocket)

/-- The standard base64 alphabet, as character codes indexed 0–63. -/
def base64Alphabet : List Char :=
  [ 'A', 'B', 'C', 'D', 'E', 'F', 'G', 'H', 'I', 'J', 'K', 'L', 'M'
  , 'N', 'O', 'P', 'Q', 'R', 'S', 'T', 'U', 'V', 'W', 'X', 'Y', 'Z'
  , 'a', 'b', 'c', 'd', 'e', 'f', 'g', 'h', 'i', 'j', 'k', 'l', 'm'
  , 'n', 'o', 'p', 'q', 'r', 's', 't', 'u', 'v', 'w', 'x', 'y', 'z'
  , '0', '1', '2', '3', '4', '5', '6', '7', '8', '9', '+', '/' ]

/-- The base64 character for a 6-bit value. -/
def b64Char (n : Nat) : Char := base64Alphabet.getD n '?'

/-- The 6-bit value of a base64 character. -/
def b64Val (ch : Char) : Nat := base64Alphabet.indexOf ch

/-- Base64 encoding of a byte list (bytes as naturals < 256): each group
of 3 bytes becomes 4 characters; a trailing group of 1 or 2 bytes is
padded with `=`. This models `FileSystem.readAsStringAsync(uri,
{encoding: Base64})` applied to the recording file's bytes. -/
def base64Encode : List Nat → List Char
  | [] => []
  | [b1] => [b64Char (b1 / 4), b64Char (b1 % 4 * 16), '=', '=']
  | [b1, b2] => [b64Char (b1 / 4), b64Char (b1 % 4 * 16 + b2 / 16), b64Char (b2 % 16 * 4), '=']
  | b1 :: b2 :: b3 :: rest =>
    b64Char (b1 / 4) :: b64Char (b1 % 4 * 16 + b2 / 16) ::
      b64Char (b2 % 16 * 4 + b3 / 64) :: b64Char (b3 % 64) :: base64Encode rest

/-- Base64 decoding of a character list (inverse of `base64Encode` on
well-formed input), used to state which original bytes a transmitted
chunk covers. -/
def base64Decode : List Char → List Nat
  | [c1, c2, '=', '='] => [b64Val c1 * 4 + b64Val c2 / 16]
  | [c1, c2, c3, '='] => [b64Val c1 * 4 + b64Val c2 / 16, b64Val c2 % 16 * 16 + b64Val c3 / 4]
  | c1 :: c2 :: c3 :: c4 :: rest =>
    (b64Val c1 * 4 + b64Val c2 / 16) :: (b64Val c2 % 16 * 16 + b64Val c3 / 4) ::
      (b64Val c3 % 4 * 64 + b64Val c4) :: base64Decode rest
  | _ => []

/-- Streaming-audio session state of `useVoiceCall`: the cumulative
sent-byte offset `lastAudioPositionRef` and the first-chunk marker
`isFirstChunkRef`. -/
structure AudioSessionState where
  lastAudioPosition : Nat
  isFirstChunk : Bool
deriving DecidableEq, Repr

/-- Embedding of one `sendAudioChunk` tick over a recording whose
current bytes are `fileBytes`: return unchanged with no send if the
file is empty or has not grown past the sent offset; otherwise encode
the whole file to base64, slice from character index
`ceil(lastAudioPosition / 3) * 4`, and if the slice is non-empty send
it tagged with the current first-chunk marker, advance the offset to
the current size, and clear the marker. Returns the new session state
and the sent `(chunk, isFirstChunk)` pair, if any. -/
def sendAudioChunk (st : AudioSessionState) (fileBytes : List Nat) :
    AudioSessionState × Option (List Char × Bool) :=
  let currentSize := fileBytes.length
  if currentSize = 0 then (st, none)
  else if currentSize ≤ st.lastAudioPosition then (st, none)
  else
    let base64Data := base64Encode fileBytes
    let base64Start := (st.lastAudioPosition + 2) / 3 * 4
    let newChunk := base64Data.drop base64Start
    if 0 < newChunk.length then
      (⟨currentSize, false⟩, some (newChunk, st.isFirstChunk))
    else (st, none)

/-! ### Theorems -/

/-- C1: a call to `executeQueue` while a run is already active (the
busy flag `isExecuting` is set) returns without changing any executor
state and without invoking any callback — the event trace is empty, so
the command list and cursor of the store (which change only through
these callbacks) are untouched as well, guaranteeing at most one active
run. -/
theorem executeQueue_busy_noop (st : ExecutorState) (cmds : List Command)
    (oracle : Nat → Outcome) (pos : Position) (h : st.isExecuting = true) :
    executeQueue st cmds oracle pos = (st, []) := by
  simp [executeQueue, h]

/-- Witness for `executeQueue_busy_noop` at a concrete busy state. -/
theorem executeQueue_busy_noop_witness :
    (ExecutorState.mk true false 20).isExecuting = true ∧
      executeQueue ⟨true, false, 20⟩ [⟨"forward", none, "go", "c1"⟩]
        (fun _ => .ok) ⟨0, 0, 0⟩ = (⟨true, false, 20⟩, []) :=
  ⟨rfl, executeQueue_busy_noop _ _ _ _ rfl⟩

/-- C10: `executeQueue` with an empty command list returns immediately
with no effects: the state is unchanged and no callback (in particular
no `onStatusChange('busy')`) is invoked, whereas a non-empty run from a
non-busy state always begins by reporting status `busy`. -/
theorem executeQueue_empty_noop (st : ExecutorState) (oracle : Nat → Outcome)
    (pos : Position) :
    executeQueue st [] oracle pos = (st, []) ∧
      (∀ cmds : List Command, st.isExecuting = false → cmds ≠ [] →
        (executeQueue st cmds oracle pos).2.head? =
          some (ExecEvent.statusChange .busy)) := by
  constructor
  · by_cases h : st.isExecuting <;> simp [executeQueue, h]
  · intro cmds h hne
    simp [executeQueue, h, List.length_eq_zero, hne]

/-- Witness for `executeQueue_empty_noop` at concrete inputs. -/
theorem executeQueue_empty_noop_witness :
    executeQueue ⟨false, false, 20⟩ [] (fun _ => .ok) ⟨0, 0, 0⟩ =
        (⟨false, false, 20⟩, []) ∧
      (executeQueue ⟨false, false, 20⟩ [⟨"stop", none, "s", "c1"⟩]
          (fun _ => .ok) ⟨0, 0, 0⟩).2.head? =
        some (ExecEvent.statusChange .busy) :=
  ⟨(executeQueue_empty_noop ⟨false, false, 20⟩ (fun _ => .ok) ⟨0, 0, 0⟩).1,
    (executeQueue_empty_noop ⟨false, false, 20⟩ (fun _ => .ok) ⟨0, 0, 0⟩).2
      _ rfl (by simp)⟩

/-- C9: calling `connect()` while a previous attempt is in progress
(`isConnecting` set, socket not open) returns after only clearing the
manual-disconnect flag: the promise executor neither resolves nor
rejects nor creates a socket, and since no handler retains the
resolver the returned promise can never settle. -/
theorem connect_while_connecting (st : WSState) (h1 : st.wsOpen = false)
    (h2 : st.isConnecting = true) :
    connectStep st = ({ st with manualDisconnect := false }, .silentReturn) ∧
      (connectStep st).2.canSettle = false ∧
      (connectStep st).2.createsSocket = false := by
  have h : connectStep st = ({ st with manualDisconnect := false }, .silentReturn) := by
    simp [connectStep, h1, h2]
  exact ⟨h, by rw [h]; rfl, by rw [h]; rfl⟩

/-- Witness for `connect_while_connecting` at a concrete state. -/
theorem connect_while_connecting_witness :
    (WSState.mk 1 true true false).wsOpen = false ∧
      (WSState.mk 1 true true false).isConnecting = true ∧
      connectStep ⟨1, true, true, false⟩ = (⟨1, false, true, false⟩, .silentReturn) :=
  ⟨rfl, rfl, (connect_while_connecting ⟨1, true, true, false⟩ rfl rfl).1⟩

/-- C5: after a successful open (which resets the attempt counter),
three consecutive non-manual closes schedule reconnect delays 1000 ms,
2000 ms and 5000 ms in that order, and a fourth close schedules
nothing further (the run of four closes yields exactly those three
delays); a manual disconnect sets a flag under which a close schedules
no reconnect at all. -/
theorem reconnect_schedule (st : WSState) (h : st.manualDisconnect = false) :
    (wsStep st .open).1.reconnectAttempts = 0 ∧
      (wsRun (wsStep st .open).1 [.close, .close, .close, .close]).2 =
        [1000, 2000, 5000] ∧
      (∀ st2 : WSState, (wsStep (wsStep st2 .manualClose).1 .close).2 = none) := by
  obtain ⟨a, m, c, o⟩ := st
  simp only at h
  subst h
  refine ⟨rfl, ?_, ?_⟩
  · rfl
  · intro st2
    simp [wsStep]

/-- Witness for `reconnect_schedule` at a concrete state. -/
theorem reconnect_schedule_witness :
    (WSState.mk 2 false true false).manualDisconnect = false ∧
      (wsRun (wsStep ⟨2, false, true, false⟩ .open).1
          [.close, .close, .close, .close]).2 = [1000, 2000, 5000] :=
  ⟨rfl, (reconnect_schedule ⟨2, false, true, false⟩ rfl).2.1⟩

/-- Appending to a list already clamped to its last `n` elements and
clamping again is the same as clamping the full concatenation once. -/
lemma jsSliceLast_append (n : Nat) (a b : List α) :
    jsSliceLast n (jsSliceLast n a ++ b) = jsSliceLast n (a ++ b) := by
  simp only [jsSliceLast, List.length_append, List.length_drop,
    List.drop_append_eq_append_drop, List.drop_drop]
  congr 2 <;> omega

/-- Clamping never yields more than `n` elements. -/
lemma jsSliceLast_length_le (n : Nat) (l : List α) :
    (jsSliceLast n l).length ≤ n := by
  simp only [jsSliceLast, List.length_drop]
  omega

/-- Clamping a list of at most `n` elements is the identity. -/
lemma jsSliceLast_of_le (n : Nat) (l : List α) (h : l.length ≤ n) :
    jsSliceLast n l = l := by
  simp [jsSliceLast, Nat.sub_eq_zero_of_le h]

/-- The full command list after a sequence of enqueue calls: the old
records followed by the delivered commands in call order, each tagged
pending with no error. -/
lemma applyEnqueues_commands (ops : List EnqueueOp) :
    ∀ st : CommandStoreState,
      (applyEnqueues st ops).commands =
        st.commands ++
          (enqueuedCommands ops).map (fun c => CommandWithStatus.mk c .pending none) := by
  induction ops with
  | nil =>
    intro st
    simp [applyEnqueues, enqueuedCommands]
  | cons op ops ih =>
    intro st
    have hstep : applyEnqueues st (op :: ops) = applyEnqueues (applyEnqueue st op) ops := rfl
    rw [hstep, ih]
    cases op with
    | single c => simp [applyEnqueue, addCommand, enqueuedCommands]
    | batch cs => simp [applyEnqueue, addCommands, enqueuedCommands]

/-- The history after a sequence of enqueue calls is the capacity-100
clamp of the old history followed by all delivered commands. -/
lemma applyEnqueues_history (ops : List EnqueueOp) :
    ∀ st : CommandStoreState, st.history.length ≤ MAX_HISTORY_SIZE →
      (applyEnqueues st ops).history =
        jsSliceLast MAX_HISTORY_SIZE (st.history ++ enqueuedCommands ops) := by
  induction ops with
  | nil =>
    intro st h
    simp [applyEnqueues, enqueuedCommands, jsSliceLast_of_le _ _ h]
  | cons op ops ih =>
    intro st h
    cases op with
    | single c =>
      have hstep : applyEnqueues st (EnqueueOp.single c :: ops) =
          applyEnqueues (addCommand st c) ops := rfl
      rw [hstep, ih (addCommand st c) (jsSliceLast_length_le _ _)]
      show jsSliceLast MAX_HISTORY_SIZE
          (jsSliceLast MAX_HISTORY_SIZE (st.history ++ [c]) ++ enqueuedCommands ops) = _
      rw [jsSliceLast_append]
      simp [enqueuedCommands]
    | batch cs =>
      have hstep : applyEnqueues st (EnqueueOp.batch cs :: ops) =
          applyEnqueues (addCommands st cs) ops := rfl
      rw [hstep, ih (addCommands st cs) (jsSliceLast_length_le _ _)]
      show jsSliceLast MAX_HISTORY_SIZE
          (jsSliceLast MAX_HISTORY_SIZE (st.history ++ cs) ++ enqueuedCommands ops) = _
      rw [jsSliceLast_append]
      simp [enqueuedCommands]

/-- A sequence of single enqueues delivers exactly its commands. -/
lemma enqueuedCommands_singles (cs : List Command) :
    enqueuedCommands (cs.map EnqueueOp.single) = cs := by
  induction cs with
  | nil => rfl
  | cons c cs ih => simp [enqueuedCommands, ih]

/-- C7: for every sequence of enqueue operations (single or batched),
the resulting command-list order equals the call order — the final
list is the old records followed by the delivered commands in call
order — and every newly appended record has status `pending`. -/
theorem enqueue_order_pending (st : CommandStoreState) (ops : List EnqueueOp) :
    (applyEnqueues st ops).commands =
        st.commands ++
          (enqueuedCommands ops).map (fun c => CommandWithStatus.mk c .pending none) ∧
      ∀ r ∈ (applyEnqueues st ops).commands, r ∈ st.commands ∨ r.status = .pending := by
  refine ⟨applyEnqueues_commands ops st, ?_⟩
  intro r hr
  rw [applyEnqueues_commands ops st] at hr
  rcases List.mem_append.mp hr with h | h
  · exact Or.inl h
  · obtain ⟨c, -, rfl⟩ := List.mem_map.mp h
    exact Or.inr rfl

/-- Witness for `enqueue_order_pending`: one single enqueue followed
by a batch of two, starting from the empty store. -/
theorem enqueue_order_pending_witness :
    (applyEnqueues ⟨[], 0, [], false, none⟩
        [.single ⟨"forward", none, "A", "a"⟩,
          .batch [⟨"left", none, "B", "b"⟩, ⟨"stop", none, "C", "c"⟩]]).commands =
      [⟨⟨"forward", none, "A", "a"⟩, .pending, none⟩,
        ⟨⟨"left", none, "B", "b"⟩, .pending, none⟩,
        ⟨⟨"stop", none, "C", "c"⟩, .pending, none⟩] := by
  rw [(enqueue_order_pending ⟨[], 0, [], false, none⟩ _).1]
  rfl

/-- C8: starting from a store whose history respects the capacity, the
history after any sequence of enqueue calls is exactly the last 100 of
all enqueued commands (oldest evicted first) and so never exceeds 100
entries; in particular, enqueueing 105 sequential single commands into
the empty store leaves exactly the 100 most recent. -/
theorem history_retention (st : CommandStoreState) (ops : List EnqueueOp)
    (h : st.history.length ≤ MAX_HISTORY_SIZE) :
    (applyEnqueues st ops).history =
        jsSliceLast MAX_HISTORY_SIZE (st.history ++ enqueuedCommands ops) ∧
      (applyEnqueues st ops).history.length ≤ MAX_HISTORY_SIZE ∧
      (applyEnqueues ⟨[], 0, [], false, none⟩ (seqOps 105)).history =
        ((List.range 105).map seqCmd).drop 5 := by
  have h1 := applyEnqueues_history ops st h
  refine ⟨h1, by rw [h1]; exact jsSliceLast_length_le _ _, ?_⟩
  rw [applyEnqueues_history _ ⟨[], 0, [], false, none⟩ (by simp [MAX_HISTORY_SIZE])]
  rw [show seqOps 105 = ((List.range 105).map seqCmd).map EnqueueOp.single by
    simp [seqOps, List.map_map, Function.comp]]
  rw [enqueuedCommands_singles]
  simp [jsSliceLast, MAX_HISTORY_SIZE]

/-- Witness for `history_retention` at the empty store and one enqueue. -/
theorem history_retention_witness :
    (([] : List Command).length ≤ MAX_HISTORY_SIZE) ∧
      (applyEnqueues ⟨[], 0, [], false, none⟩
          [.single ⟨"forward", none, "A", "a"⟩]).history =
        jsSliceLast MAX_HISTORY_SIZE ([] ++ [⟨"forward", none, "A", "a"⟩]) :=
  ⟨by simp [MAX_HISTORY_SIZE],
    (history_retention ⟨[], 0, [], false, none⟩
      [.single ⟨"forward", none, "A", "a"⟩] (by simp [MAX_HISTORY_SIZE])).1⟩

/-- C3 counterexample: the claim says `forward` subtracts the given
distance from `z`, so from `(0,0,0)` with `distance = 0` it predicts
`(0,0,0)`; the code's `params.distance || 1` treats the falsy number
`0` as absent and moves to `(0,0,-1)` instead. -/
theorem calcTarget_zero_distance_counterexample :
    calculateTargetPosition ⟨"forward", some 0, "", "c0"⟩ ⟨0, 0, 0⟩ = ⟨0, 0, -1⟩ ∧
      calculateTargetPosition ⟨"forward", some 0, "", "c0"⟩ ⟨0, 0, 0⟩ ≠
        ⟨0, 0, 0 - 0⟩ := by
  constructor <;> simp +decide [calculateTargetPosition, jsOrOne, Position.mk.injEq]

/-- C3 (amended): the directional vocabulary holds with the default
rule `distance || 1`, i.e. the distance defaults to `1` both when the
parameter is absent and when it equals the falsy number `0`: forward
subtracts that value from z, backward adds to z, left subtracts from
x, right adds to x, up adds to y, down subtracts from y, and
`turn_left`/`turn_right`/`stop` leave the position unchanged; from
`(0,0,0)`, `forward` with distance 3 ends at `(0,0,-3)` and `right`
with distance 2 ends at `(2,0,0)`. -/
theorem calcTarget_directions (d : Option ℚ) (ds cid : String) (p : Position) :
    calculateTargetPosition ⟨"forward", d, ds, cid⟩ p =
        { p with z := p.z - jsOrOne d } ∧
      calculateTargetPosition ⟨"backward", d, ds, cid⟩ p =
        { p with z := p.z + jsOrOne d } ∧
      calculateTargetPosition ⟨"left", d, ds, cid⟩ p =
        { p with x := p.x - jsOrOne d } ∧
      calculateTargetPosition ⟨"right", d, ds, cid⟩ p =
        { p with x := p.x + jsOrOne d } ∧
      calculateTargetPosition ⟨"up", d, ds, cid⟩ p =
        { p with y := p.y + jsOrOne d } ∧
      calculateTargetPosition ⟨"down", d, ds, cid⟩ p =
        { p with y := p.y - jsOrOne d } ∧
      calculateTargetPosition ⟨"turn_left", d, ds, cid⟩ p = p ∧
      calculateTargetPosition ⟨"turn_right", d, ds, cid⟩ p = p ∧
      calculateTargetPosition ⟨"stop", d, ds, cid⟩ p = p ∧
      jsOrOne none = 1 ∧ jsOrOne (some 0) = 1 ∧
      (∀ v : ℚ, v ≠ 0 → jsOrOne (some v) = v) ∧
      calculateTargetPosition ⟨"forward", some 3, ds, cid⟩ ⟨0, 0, 0⟩ = ⟨0, 0, -3⟩ ∧
      calculateTargetPosition ⟨"right", some 2, ds, cid⟩ ⟨0, 0, 0⟩ = ⟨2, 0, 0⟩ := by
  refine ⟨rfl, rfl, rfl, rfl, rfl, rfl, rfl, rfl, rfl, rfl,
      by norm_num [jsOrOne], ?_, ?_, ?_⟩
  · intro v hv
    simp [jsOrOne, hv]
  · simp +decide [calculateTargetPosition, jsOrOne, Position.mk.injEq]
  · simp +decide [calculateTargetPosition, jsOrOne, Position.mk.injEq]

/-- Witness for `calcTarget_directions`: the nonzero-distance default
rule applied at distance 5. -/
theorem calcTarget_directions_witness :
    (5 : ℚ) ≠ 0 ∧ jsOrOne (some 5) = 5 :=
  ⟨by norm_num,
    (calcTarget_directions (some 5) "w" "cw" ⟨1, 2, 3⟩).2.2.2.2.2.2.2.2.2.2.2.1
      5 (by norm_num)⟩

/-- The interpolation loop emits exactly `k` position updates. -/
lemma interpLoop_length (cur tgt : Position) (steps : Nat) :
    ∀ k, (interpLoop cur tgt steps k).length = k := by
  intro k
  induction k with
  | zero => rfl
  | succ k ih => simp [interpLoop, ih]

/-- The `i`-th update of the interpolation loop is the `(i+1)`-st
interpolation point. -/
lemma interpLoop_getElem (cur tgt : Position) (steps : Nat) :
    ∀ k i, i < k → (interpLoop cur tgt steps k)[i]? =
      some (interpolationPoint cur tgt steps (i + 1)) := by
  intro k
  induction k with
  | zero => exact fun i hi => absurd hi (Nat.not_lt_zero i)
  | succ k ih =>
    intro i hi
    rcases Nat.lt_succ_iff_lt_or_eq.mp hi with h | h
    · show (interpLoop cur tgt steps k ++ [interpolationPoint cur tgt steps (k + 1)])[i]? = _
      rw [List.getElem?_append_left (by rw [interpLoop_length]; exact h)]
      exact ih i h
    · subst h
      show (interpLoop cur tgt steps i ++ [interpolationPoint cur tgt steps (i + 1)])[i]? = _
      have hl := interpLoop_length cur tgt steps i
      have hc := List.getElem?_concat_length (interpLoop cur tgt steps i)
        (interpolationPoint cur tgt steps (i + 1))
      rw [hl] at hc
      exact hc

/-- With exact arithmetic, the `steps`-th interpolation point is the
target itself: `cur + (tgt − cur)/steps · steps = tgt`. -/
lemma interpolationPoint_last (cur tgt : Position) (steps : Nat) (h : steps ≠ 0) :
    interpolationPoint cur tgt steps steps = tgt := by
  have hs : (steps : ℚ) ≠ 0 := Nat.cast_ne_zero.mpr h
  cases tgt with
  | mk tx ty tz =>
    simp only [interpolationPoint, Position.mk.injEq]
    refine ⟨?_, ?_, ?_⟩ <;> (field_simp)

/-- C2: for a command whose computed target differs from the current
position, execution with step count `steps` (default 20) emits the
`steps` interpolation updates of the form
`current + i·(target − current)/steps` for `i = 1..steps` followed by
one final forced update; the last position value emitted exactly
equals the computed target, and with exact arithmetic the `steps`-th
interpolation value itself already equals the target, eliminating
residual drift. -/
theorem executeCommand_interpolation (steps : Nat) (cmd : Command) (cur : Position)
    (hs : steps ≠ 0) (hne : cur ≠ calculateTargetPosition cmd cur) :
    executeCommandEmissions steps cmd cur =
        interpLoop cur (calculateTargetPosition cmd cur) steps steps ++
          [calculateTargetPosition cmd cur] ∧
      (executeCommandEmissions steps cmd cur).length = steps + 1 ∧
      (∀ i, i < steps → (executeCommandEmissions steps cmd cur)[i]? =
        some (interpolationPoint cur (calculateTargetPosition cmd cur) steps (i + 1))) ∧
      (executeCommandEmissions steps cmd cur).getLast? =
        some (calculateTargetPosition cmd cur) ∧
      interpolationPoint cur (calculateTargetPosition cmd cur) steps steps =
        calculateTargetPosition cmd cur := by
  have hemit : executeCommandEmissions steps cmd cur =
      interpLoop cur (calculateTargetPosition cmd cur) steps steps ++
        [calculateTargetPosition cmd cur] := by
    simp [executeCommandEmissions, hne]
  refine ⟨hemit, ?_, ?_, ?_, interpolationPoint_last _ _ _ hs⟩
  · rw [hemit]
    simp [interpLoop_length]
  · intro i hi
    rw [hemit, List.getElem?_append_left (by rw [interpLoop_length]; exact hi)]
    exact interpLoop_getElem cur _ steps steps i hi
  · rw [hemit]
    exact List.getLast?_concat _

/-- Witness for `executeCommand_interpolation`: the default 20-step
run of `forward` distance 3 from the origin ends exactly at the
computed target. -/
theorem executeCommand_interpolation_witness :
    (20 : Nat) ≠ 0 ∧
      Position.mk 0 0 0 ≠
        calculateTargetPosition ⟨"forward", some 3, "f", "w"⟩ ⟨0, 0, 0⟩ ∧
      (executeCommandEmissions 20 ⟨"forward", some 3, "f", "w"⟩ ⟨0, 0, 0⟩).getLast? =
        some (calculateTargetPosition ⟨"forward", some 3, "f", "w"⟩ ⟨0, 0, 0⟩) := by
  have hne : Position.mk 0 0 0 ≠
      calculateTargetPosition ⟨"forward", some 3, "f", "w"⟩ ⟨0, 0, 0⟩ := by
    simp +decide [calculateTargetPosition, jsOrOne, Position.mk.injEq]
  exact ⟨by norm_num, hne,
    (executeCommand_interpolation 20 ⟨"forward", some 3, "f", "w"⟩ ⟨0, 0, 0⟩
      (by norm_num) hne).2.2.2.1⟩

/-- If no cancellation is observed before the `i`-th command of the
loop — earlier commands may have completed or failed — and the `i`-th
raises a non-cancellation error, the loop's trace contains the
`onCommandError` invocation with that command, its pending-subset
index, and the error. -/
lemma runLoop_error_mem (steps : Nat) (oracle : Nat → Outcome) (msg : String) :
    ∀ (cmds : List Command) (i i0 : Nat) (pos : Position) (hi : i < cmds.length),
      (∀ k, k < i → (oracle (i0 + k)).isCancel = false) →
      oracle (i0 + i) = .fail msg →
      ExecEvent.commandError (cmds.get ⟨i, hi⟩) (i0 + i) msg ∈
        runLoop steps oracle cmds i0 pos := by
  intro cmds
  induction cmds with
  | nil =>
    intro i i0 pos hi
    exact absurd hi (by simp)
  | cons c rest ih =>
    intro i i0 pos hi hok hf
    cases i with
    | zero =>
      rw [Nat.add_zero] at hf ⊢
      simp only [runLoop]
      rw [hf]
      simp
    | succ k =>
      have h0 : (oracle i0).isCancel = false := by
        have := hok 0 (Nat.succ_pos k)
        rwa [Nat.add_zero] at this
      have hok1 : ∀ m, m < k → (oracle (i0 + 1 + m)).isCancel = false := fun m hm => by
        have := hok (m + 1) (Nat.succ_lt_succ hm)
        rwa [show i0 + (m + 1) = i0 + 1 + m by omega] at this
      have hf1 : oracle (i0 + 1 + k) = .fail msg := by
        rwa [show i0 + 1 + k = i0 + (k + 1) by omega]
      have hi1 : k < rest.length := Nat.lt_of_succ_lt_succ hi
      rw [show i0 + (k + 1) = i0 + 1 + k by omega]
      cases hoc : oracle i0 with
      | cancelBefore =>
        rw [hoc] at h0
        exact absurd h0 (by simp [Outcome.isCancel])
      | cancelDuring m =>
        rw [hoc] at h0
        exact absurd h0 (by simp [Outcome.isCancel])
      | ok =>
        simp only [runLoop]
        rw [hoc]
        exact List.mem_cons_of_mem _ (List.mem_cons_of_mem _
          (List.mem_append_right _ (List.mem_cons_of_mem _
            (ih k (i0 + 1) (calculateTargetPosition c pos) hi1 hok1 hf1))))
      | fail m =>
        simp only [runLoop]
        rw [hoc]
        exact List.mem_cons_of_mem _ (List.mem_cons_of_mem _
          (List.mem_cons_of_mem _ (ih k (i0 + 1) pos hi1 hok1 hf1)))

/-- If no abort is observed before the `i`-th command of the loop and
the abort signal is not set at the top of its iteration, the loop's
trace contains the `onCommandStart` invocation for it. -/
lemma runLoop_start_mem (steps : Nat) (oracle : Nat → Outcome) :
    ∀ (cmds : List Command) (i i0 : Nat) (pos : Position) (hi : i < cmds.length),
      (∀ k, k < i → (oracle (i0 + k)).isCancel = false) →
      oracle (i0 + i) ≠ .cancelBefore →
      ExecEvent.commandStart (cmds.get ⟨i, hi⟩) (i0 + i) ∈
        runLoop steps oracle cmds i0 pos := by
  intro cmds
  induction cmds with
  | nil =>
    intro i i0 pos hi
    exact absurd hi (by simp)
  | cons c rest ih =>
    intro i i0 pos hi hok hnc
    cases i with
    | zero =>
      rw [Nat.add_zero] at hnc ⊢
      cases hoc : oracle i0 with
      | cancelBefore => exact absurd hoc hnc
      | ok =>
        simp only [runLoop]
        rw [hoc]
        exact List.mem_cons_self _ _
      | fail m =>
        simp only [runLoop]
        rw [hoc]
        exact List.mem_cons_self _ _
      | cancelDuring m =>
        simp only [runLoop]
        rw [hoc]
        exact List.mem_cons_self _ _
    | succ k =>
      have h0 : (oracle i0).isCancel = false := by
        have := hok 0 (Nat.succ_pos k)
        rwa [Nat.add_zero] at this
      have hok1 : ∀ m, m < k → (oracle (i0 + 1 + m)).isCancel = false := fun m hm => by
        have := hok (m + 1) (Nat.succ_lt_succ hm)
        rwa [show i0 + (m + 1) = i0 + 1 + m by omega] at this
      have hnc1 : oracle (i0 + 1 + k) ≠ .cancelBefore := by
        rwa [show i0 + 1 + k = i0 + (k + 1) by omega]
      have hi1 : k < rest.length := Nat.lt_of_succ_lt_succ hi
      rw [show i0 + (k + 1) = i0 + 1 + k by omega]
      cases hoc : oracle i0 with
      | cancelBefore =>
        rw [hoc] at h0
        exact absurd h0 (by simp [Outcome.isCancel])
      | cancelDuring m =>
        rw [hoc] at h0
        exact absurd h0 (by simp [Outcome.isCancel])
      | ok =>
        simp only [runLoop]
        rw [hoc]
        exact List.mem_cons_of_mem _ (List.mem_cons_of_mem _
          (List.mem_append_right _ (List.mem_cons_of_mem _
            (ih k (i0 + 1) (calculateTargetPosition c pos) hi1 hok1 hnc1))))
      | fail m =>
        simp only [runLoop]
        rw [hoc]
        exact List.mem_cons_of_mem _ (List.mem_cons_of_mem _
          (List.mem_cons_of_mem _ (ih k (i0 + 1) pos hi1 hok1 hnc1)))

/-- Once a cancellation is observed at the `i`-th command of the loop
(no abort having been observed earlier), no later command is ever
started: the loop breaks immediately. -/
lemma runLoop_cancel_stops (steps : Nat) (oracle : Nat → Outcome) :
    ∀ (cmds : List Command) (i i0 : Nat) (pos : Position),
      (∀ k, k < i → (oracle (i0 + k)).isCancel = false) →
      (oracle (i0 + i)).isCancel = true →
      ∀ j, i0 + i < j → ∀ c,
        ExecEvent.commandStart c j ∉ runLoop steps oracle cmds i0 pos := by
  intro cmds
  induction cmds with
  | nil =>
    intro i i0 pos _ _ j hj c
    simp [runLoop]
  | cons c0 rest ih =>
    intro i i0 pos hok hc j hj c
    cases i with
    | zero =>
      rw [Nat.add_zero] at hc hj
      cases hoc : oracle i0 with
      | ok =>
        rw [hoc] at hc
        simp [Outcome.isCancel] at hc
      | fail m =>
        rw [hoc] at hc
        simp [Outcome.isCancel] at hc
      | cancelBefore =>
        simp only [runLoop]
        rw [hoc]
        simp
      | cancelDuring m =>
        simp only [runLoop]
        rw [hoc]
        intro hmem
        rcases List.mem_cons.mp hmem with heq | hmem
        · injection heq with _ h2
          omega
        rcases List.mem_cons.mp hmem with heq | hmem
        · exact ExecEvent.noConfusion heq
        · obtain ⟨p, -, hp⟩ := List.mem_map.mp hmem
          exact ExecEvent.noConfusion hp
    | succ k =>
      have h0 : (oracle i0).isCancel = false := by
        have := hok 0 (Nat.succ_pos k)
        rwa [Nat.add_zero] at this
      have hok1 : ∀ m, m < k → (oracle (i0 + 1 + m)).isCancel = false := fun m hm => by
        have := hok (m + 1) (Nat.succ_lt_succ hm)
        rwa [show i0 + (m + 1) = i0 + 1 + m by omega] at this
      have hc1 : (oracle (i0 + 1 + k)).isCancel = true := by
        rwa [show i0 + 1 + k = i0 + (k + 1) by omega]
      have hj1 : i0 + 1 + k < j := by omega
      cases hoc : oracle i0 with
      | cancelBefore =>
        rw [hoc] at h0
        exact absurd h0 (by simp [Outcome.isCancel])
      | cancelDuring m =>
        rw [hoc] at h0
        exact absurd h0 (by simp [Outcome.isCancel])
      | ok =>
        simp only [runLoop]
        rw [hoc]
        intro hmem
        rcases List.mem_cons.mp hmem with heq | hmem
        · injection heq with _ h2
          omega
        rcases List.mem_cons.mp hmem with heq | hmem
        · exact ExecEvent.noConfusion heq
        rcases List.mem_append.mp hmem with hmap | hmem
        · obtain ⟨p, -, hp⟩ := List.mem_map.mp hmap
          exact ExecEvent.noConfusion hp
        rcases List.mem_cons.mp hmem with heq | hrec
        · exact ExecEvent.noConfusion heq
        · exact ih k (i0 + 1) (calculateTargetPosition c0 pos) hok1 hc1 j hj1 c hrec
      | fail m =>
        simp only [runLoop]
        rw [hoc]
        intro hmem
        rcases List.mem_cons.mp hmem with heq | hmem
        · injection heq with _ h2
          omega
        rcases List.mem_cons.mp hmem with heq | hmem
        · exact ExecEvent.noConfusion heq
        rcases List.mem_cons.mp hmem with heq | hrec
        · exact ExecEvent.noConfusion heq
        · exact ih k (i0 + 1) pos hok1 hc1 j hj1 c hrec

/-- C4: during a queue run with no cancellation before pending-subset
index `i` — earlier commands may have completed or failed, covering
runs with several failures — a non-cancellation failure of command `i`
is caught and reported via `onCommandError` with the command, its
index, and the error; the run proceeds to start the next command; the
store's `onCommandError` handler marks the matching record failed with
the error message. A cancellation observed at command `i` stops the
run immediately: no command after `i` is ever started. -/
theorem executeQueue_error_policy (st : ExecutorState) (cmds : List Command)
    (oracle : Nat → Outcome) (pos : Position) (msg : String) (i : Nat)
    (hbusy : st.isExecuting = false) (hi : i < cmds.length)
    (hok : ∀ k, k < i → (oracle k).isCancel = false) :
    (oracle i = .fail msg →
        ExecEvent.commandError (cmds.get ⟨i, hi⟩) i msg ∈
          (executeQueue st cmds oracle pos).2 ∧
        ∀ hj : i + 1 < cmds.length, oracle (i + 1) ≠ .cancelBefore →
          ExecEvent.commandStart (cmds.get ⟨i + 1, hj⟩) (i + 1) ∈
            (executeQueue st cmds oracle pos).2) ∧
      ((oracle i).isCancel = true →
        ∀ j, i < j → ∀ c, ExecEvent.commandStart c j ∉
          (executeQueue st cmds oracle pos).2) ∧
      (∀ store : CommandStoreState, ∀ c : Command, ∀ n : Nat,
        ∀ r ∈ (applyExecEvent store (ExecEvent.commandError c n msg)).commands,
          r.cmd.command_id = c.command_id → r.status = .failed ∧ r.error = some msg) := by
  have hne : ¬cmds.length = 0 := by omega
  have hev : (executeQueue st cmds oracle pos).2 =
      ExecEvent.statusChange .busy ::
        (runLoop st.animationSteps oracle cmds 0 pos ++
          [ExecEvent.statusChange .idle, ExecEvent.actionChange none]) := by
    simp [executeQueue, hbusy, hne]
  refine ⟨?_, ?_, ?_⟩
  · intro hf
    constructor
    · rw [hev]
      refine List.mem_cons_of_mem _ (List.mem_append_left _ ?_)
      have hm := runLoop_error_mem st.animationSteps oracle msg cmds i 0 pos hi
        (fun k hk => by rw [Nat.zero_add]; exact hok k hk)
        (by rwa [Nat.zero_add])
      rwa [Nat.zero_add] at hm
    · intro hj hnc
      rw [hev]
      refine List.mem_cons_of_mem _ (List.mem_append_left _ ?_)
      have hm := runLoop_start_mem st.animationSteps oracle cmds (i + 1) 0 pos hj
        (fun k hk => by
          rw [Nat.zero_add]
          rcases Nat.lt_succ_iff_lt_or_eq.mp hk with h | h
          · exact hok k h
          · subst h
            rw [hf]
            rfl)
        (by rwa [Nat.zero_add])
      rwa [Nat.zero_add] at hm
  · intro hc j hj c
    rw [hev]
    intro hmem
    rcases List.mem_cons.mp hmem with heq | hmem
    · exact ExecEvent.noConfusion heq
    rcases List.mem_append.mp hmem with hrun | htail
    · exact runLoop_cancel_stops st.animationSteps oracle cmds i 0 pos
        (fun k hk => by rw [Nat.zero_add]; exact hok k hk)
        (by rwa [Nat.zero_add]) j (by omega) c hrun
    · simp at htail
  · intro store c n r hr hid
    have hr2 : r ∈ store.commands.map fun r0 =>
        if r0.cmd.command_id = c.command_id then
          { r0 with status := CommandStatus.failed, error := some msg }
        else r0 := hr
    obtain ⟨r0, -, rfl⟩ := List.mem_map.mp hr2
    by_cases h : r0.cmd.command_id = c.command_id
    · rw [if_pos h]
      exact ⟨rfl, rfl⟩
    · rw [if_neg h] at hid
      exact absurd hid h

/-- Witness for `executeQueue_error_policy`: a two-command run in
which both commands fail with non-cancellation errors — the first
failure is reported, the second command is still started, and its
failure is reported as well (partial-failure tolerance). -/
theorem executeQueue_error_policy_witness :
    ExecEvent.commandError ⟨"forward", none, "A", "a"⟩ 0 "boom" ∈
        (executeQueue ⟨false, false, 2⟩
          [⟨"forward", none, "A", "a"⟩, ⟨"right", none, "B", "b"⟩]
          (fun _ => .fail "boom") ⟨0, 0, 0⟩).2 ∧
      ExecEvent.commandStart ⟨"right", none, "B", "b"⟩ 1 ∈
        (executeQueue ⟨false, false, 2⟩
          [⟨"forward", none, "A", "a"⟩, ⟨"right", none, "B", "b"⟩]
          (fun _ => .fail "boom") ⟨0, 0, 0⟩).2 ∧
      ExecEvent.commandError ⟨"right", none, "B", "b"⟩ 1 "boom" ∈
        (executeQueue ⟨false, false, 2⟩
          [⟨"forward", none, "A", "a"⟩, ⟨"right", none, "B", "b"⟩]
          (fun _ => .fail "boom") ⟨0, 0, 0⟩).2 := by
  have h0 := executeQueue_error_policy ⟨false, false, 2⟩
    [⟨"forward", none, "A", "a"⟩, ⟨"right", none, "B", "b"⟩]
    (fun _ => .fail "boom") ⟨0, 0, 0⟩ "boom" 0
    rfl (by norm_num) (fun k hk => absurd hk (Nat.not_lt_zero k))
  have h1 := executeQueue_error_policy ⟨false, false, 2⟩
    [⟨"forward", none, "A", "a"⟩, ⟨"right", none, "B", "b"⟩]
    (fun _ => .fail "boom") ⟨0, 0, 0⟩ "boom" 1
    rfl (by norm_num) (fun k hk => rfl)
  obtain ⟨he0, hs1⟩ := h0.1 rfl
  exact ⟨he0, hs1 (by norm_num) (by decide), (h1.1 rfl).1⟩

/-- C6 counterexample: with growth 0→10 then 10→22 bytes, the second
tick sends the suffix from encoded character index
`ceil(10/3)*4 = 16`, and that suffix decodes to bytes [12,22) — not
the claimed bytes [10,22): bytes 10 and 11 are never sent. -/
theorem audio_chunk_coverage_counterexample :
    (sendAudioChunk ⟨10, false⟩ (List.range 22)).2 =
        some ((base64Encode (List.range 22)).drop 16, false) ∧
      base64Decode ((base64Encode (List.range 22)).drop 16) =
        (List.range 22).drop 12 ∧
      (List.range 22).drop 12 ≠ (List.range 22).drop 10 := by
  refine ⟨?_, ?_, ?_⟩ <;> decide

/-- C6 (amended): on each tick that sends, the chunk is the suffix of
the full base64 encoding starting at character index
`ceil(lastSentOffset/3)*4` (an encoding-group boundary), the sent
`isFirstChunk` marker equals the session's first-chunk flag — true
only until the first non-empty send, which clears it — and the sent
offset advances to the current size; a tick that does not send leaves
the session state unchanged. In the growth scenario 0→10 then 10→22
bytes, the first tick sends the full encoding of bytes [0,10) marked
first, and the second tick sends the encoding-aligned tail starting
at character 16, covering bytes [12,22) — bytes 10 and 11 are skipped
because the sent offset 10 is not a multiple of 3. -/
theorem sendAudioChunk_spec (st st2 : AudioSessionState) (bytes : List Nat)
    (ch : List Char) (fst : Bool)
    (h : sendAudioChunk st bytes = (st2, some (ch, fst))) :
    (ch = (base64Encode bytes).drop ((st.lastAudioPosition + 2) / 3 * 4) ∧
        fst = st.isFirstChunk ∧ st2 = ⟨bytes.length, false⟩) ∧
      (∀ st3 : AudioSessionState, ∀ bytes3 : List Nat,
        (sendAudioChunk st3 bytes3).2 = none → (sendAudioChunk st3 bytes3).1 = st3) ∧
      sendAudioChunk ⟨0, true⟩ (List.range 10) =
        (⟨10, false⟩, some (base64Encode (List.range 10), true)) ∧
      sendAudioChunk ⟨10, false⟩ (List.range 22) =
        (⟨22, false⟩, some ((base64Encode (List.range 22)).drop 16, false)) ∧
      base64Decode ((base64Encode (List.range 22)).drop 16) =
        (List.range 22).drop 12 := by
  refine ⟨?_, ?_, by decide, by decide, by decide⟩
  · simp only [sendAudioChunk] at h
    split at h
    · simp at h
    split at h
    · simp at h
    split at h
    · rw [Prod.mk.injEq] at h
      obtain ⟨ha, hb⟩ := h
      rw [Option.some.injEq, Prod.mk.injEq] at hb
      obtain ⟨hch, hflag⟩ := hb
      exact ⟨hch.symm, hflag.symm, ha.symm⟩
    · simp at h
  · intro st3 bytes3 hnone
    by_cases h0 : bytes3.length = 0
    · simp [sendAudioChunk, h0]
    by_cases h1 : bytes3.length ≤ st3.lastAudioPosition
    · simp [sendAudioChunk, h0, h1]
    by_cases h2 : (st3.lastAudioPosition + 2) / 3 * 4 < (base64Encode bytes3).length
    · exfalso
      simp [sendAudioChunk, h0, h1, h2] at hnone
    · simp [sendAudioChunk, h0, h1, h2]

/-- Witness for `sendAudioChunk_spec` at the first tick of the growth
scenario. -/
theorem sendAudioChunk_spec_witness :
    sendAudioChunk ⟨0, true⟩ (List.range 10) =
        (⟨10, false⟩, some (base64Encode (List.range 10), true)) ∧
      base64Encode (List.range 10) =
        (base64Encode (List.range 10)).drop ((0 + 2) / 3 * 4) := by
  have h := sendAudioChunk_spec ⟨0, true⟩ ⟨10, false⟩ (List.range 10)
    (base64Encode (List.range 10)) true (by decide)
  exact ⟨by decide, h.1.1⟩

end SpeakBot
